import Mathlib

/-!
# Verification of `src/blocking/wait.rs`

Shallow embedding of the blocking bridge in `src/blocking/wait.rs`: the
single entry point `timeout(fut, timeout)` either delegates to an ambient
tokio runtime (racing the future against `tokio::time::sleep` via
`tokio::select!`, or plain `block_on` when no timeout was requested), or
runs a self-contained poll/park loop on the calling thread.

Modelling choices:
* A future is embedded as its observed poll sequence `fut : Nat → Poll
  (Except E I)`: `fut i` is what `fut.as_mut().poll(cx)` returns the
  `i`-th time it is polled.
* `Instant` is embedded as `Nat`; `times i` is the value `Instant::now()`
  observed at the `i`-th loop iteration, and `now0` the entry instant used
  to compute the deadline (`Instant::now() + d`).
* `tokio::select!` polls its two branches in a per-poll order that is
  chosen randomly by the macro; the order is embedded as an oracle
  `futFirst : Nat → Bool` (`true` means the future branch is polled first
  on that check).  The timer branch of the select is ready exactly when
  the elapsed time has reached the requested duration.
* The loops are fuel-indexed (`none` = the given bound on iterations was
  not enough); every terminating run is reproduced by a large enough fuel.
* `thread::park`/`unpark` are embedded by their documented token
  semantics: a map from thread identities to park tokens; `unpark t` sets
  the token of `t`.
-/

set_option autoImplicit false

deriving instance DecidableEq for Except

namespace Wait

/-- The poll result of a future (`std::task::Poll`). -/
inductive Poll (α : Type) where
  | Ready (a : α)
  | Pending
deriving DecidableEq, Repr

/-- `crate::error::TimedOut`: the fixed, payload-free timeout marker. -/
structure TimedOutMark where
deriving DecidableEq, Repr

/-- `Waited<E>` from `src/blocking/wait.rs`: the error side of the call. -/
inductive Waited (E : Type) where
  | TimedOut (m : TimedOutMark)
  | Inner (e : E)
deriving DecidableEq, Repr

/-- `result.map_err(|e| Waited::Inner(e))`. -/
def mapInnerErr {I E : Type} : Except E I → Except (Waited E) I
  | .ok val => .ok val
  | .error e => .error (.Inner e)

/-- One iteration of the self-contained loop after the poll: the body of
the `loop` in `timeout` once `fut.as_mut().poll(&mut cx)` has been
observed.  `Ready(Ok(val))` returns `Ok(val)`; `Ready(Err(err))` returns
`Err(Waited::Inner(err))`; on `Pending`, if a deadline exists and
`now >= deadline` the loop returns `Err(Waited::TimedOut(..))`, otherwise
it parks for `deadline - now`; with no deadline it parks unboundedly. -/
inductive StepAction (I E : Type) where
  | done (r : Except (Waited E) I)
  | parkFor (d : Nat)
  | park
deriving DecidableEq, Repr

/-- The decision taken by one iteration of the self-contained loop, given
the poll result `p`, the optional `deadline` and the current instant
`now` (`Instant::now()` read inside the iteration). -/
def waitStep {I E : Type} (p : Poll (Except E I)) (deadline : Option Nat)
    (now : Nat) : StepAction I E :=
  match p with
  | .Ready (.ok val) => .done (.ok val)
  | .Ready (.error err) => .done (.error (.Inner err))
  | .Pending =>
    match deadline with
    | some d => if d ≤ now then .done (.error (.TimedOut ⟨⟩)) else .parkFor (d - now)
    | none => .park

/-- The self-contained poll/park loop of `timeout` (the code after the
runtime-handle check), fuel-indexed.  `i` counts loop iterations; the
future is polled first every iteration, then the deadline is checked. -/
def waitLoop {I E : Type} (fut : Nat → Poll (Except E I)) (deadline : Option Nat)
    (times : Nat → Nat) : Nat → Nat → Option (Except (Waited E) I)
  | 0, _ => none
  | fuel + 1, i =>
    match waitStep (fut i) deadline (times i) with
    | .done r => some r
    | .parkFor _ => waitLoop fut deadline times fuel (i + 1)
    | .park => waitLoop fut deadline times fuel (i + 1)

/-- The `tokio::select!` race of the delegated path: on each check the
two branches are polled in the order given by `futFirst`; the first
branch observed ready wins, the other is dropped.  `sleepDone i` tells
whether the `tokio::time::sleep(actual_timeout)` timer has elapsed at
check `i`. -/
def tokioSelect {I E : Type} (futFirst : Nat → Bool) (fut : Nat → Poll (Except E I))
    (sleepDone : Nat → Bool) : Nat → Nat → Option (Except (Waited E) I)
  | 0, _ => none
  | fuel + 1, i =>
    if futFirst i then
      match fut i with
      | .Ready r => some (mapInnerErr r)
      | .Pending =>
        if sleepDone i then some (.error (.TimedOut ⟨⟩))
        else tokioSelect futFirst fut sleepDone fuel (i + 1)
    else
      if sleepDone i then some (.error (.TimedOut ⟨⟩))
      else
        match fut i with
        | .Ready r => some (mapInnerErr r)
        | .Pending => tokioSelect futFirst fut sleepDone fuel (i + 1)

/-- `tokio_handle.block_on` of the bare future on the delegated path when
no timeout was requested: `fut.await.map_err(|e| Waited::Inner(e))`. -/
def blockOn {I E : Type} (fut : Nat → Poll (Except E I)) :
    Nat → Nat → Option (Except (Waited E) I)
  | 0, _ => none
  | fuel + 1, i =>
    match fut i with
    | .Ready r => some (mapInnerErr r)
    | .Pending => blockOn fut fuel (i + 1)

/-- `pub(crate) fn timeout<F, I, E>(fut, timeout)` from
`src/blocking/wait.rs`.  `hasHandle` is the outcome of
`tokio::runtime::Handle::try_current()`; on success the call delegates
(select race when a duration was given, plain block-on otherwise), and
otherwise it computes `deadline = timeout.map(|d| Instant::now() + d)`
and runs the self-contained loop. -/
def timeout {I E : Type} (hasHandle : Bool) (futFirst : Nat → Bool)
    (fut : Nat → Poll (Except E I)) (tmo : Option Nat) (now0 : Nat)
    (times : Nat → Nat) (fuel : Nat) : Option (Except (Waited E) I) :=
  if hasHandle then
    match tmo with
    | some actual =>
      tokioSelect futFirst fut (fun i => decide (now0 + actual ≤ times i)) fuel 0
    | none => blockOn fut fuel 0
  else
    waitLoop fut (tmo.map (fun d => now0 + d)) times fuel 0

/-- `struct ThreadWaker(Thread)`: a waker bound to one thread identity
(thread identities are embedded as `Nat`). -/
structure ThreadWaker where
  thread : Nat
deriving DecidableEq, Repr

/-- `Thread::unpark` by its documented token semantics: makes the park
token of thread `t` available, leaving every other thread untouched. -/
def unpark (t : Nat) (tokens : Nat → Bool) : Nat → Bool :=
  fun u => if u = t then true else tokens u

/-- `ArcWake::wake_by_ref` for `ThreadWaker`: `arc_self.0.unpark()`. -/
def wake_by_ref (w : ThreadWaker) (tokens : Nat → Bool) : Nat → Bool :=
  unpark w.thread tokens

/-! ## Unfolding lemmas for the self-contained loop -/

section Lemmas

variable {I E : Type} (fut : Nat → Poll (Except E I)) (futFirst : Nat → Bool)
variable (sleepDone : Nat → Bool) (times : Nat → Nat)

lemma waitLoop_ready (dl : Option Nat) (s m : Nat) (r : Except E I)
    (h : fut s = .Ready r) :
    waitLoop fut dl times (m + 1) s = some (mapInnerErr r) := by
  cases r with
  | ok v => simp [waitLoop, waitStep, h, mapInnerErr]
  | error e => simp [waitLoop, waitStep, h, mapInnerErr]

lemma waitLoop_timedOut (d s m : Nat) (h1 : fut s = .Pending) (h2 : d ≤ times s) :
    waitLoop fut (some d) times (m + 1) s = some (.error (.TimedOut ⟨⟩)) := by
  simp [waitLoop, waitStep, h1, h2]

lemma waitLoop_park (d s fuel : Nat) (h1 : fut s = .Pending) (h2 : times s < d) :
    waitLoop fut (some d) times (fuel + 1) s = waitLoop fut (some d) times fuel (s + 1) := by
  simp [waitLoop, waitStep, h1, Nat.not_le.mpr h2]

lemma waitLoop_park_none (s fuel : Nat) (h1 : fut s = .Pending) :
    waitLoop fut none times (fuel + 1) s = waitLoop fut none times fuel (s + 1) := by
  simp [waitLoop, waitStep, h1]

lemma waitLoop_skip (d n : Nat) :
    ∀ s m : Nat, (∀ j, j < n → fut (s + j) = .Pending ∧ times (s + j) < d) →
      waitLoop fut (some d) times (n + m) s = waitLoop fut (some d) times m (s + n) := by
  induction n with
  | zero => intro s m _; simp
  | succ n ih =>
    intro s m h
    have h0 := h 0 (Nat.succ_pos n)
    rw [Nat.add_zero] at h0
    rw [show n + 1 + m = (n + m) + 1 by omega,
      waitLoop_park fut times d s (n + m) h0.1 h0.2,
      show s + (n + 1) = s + 1 + n by omega]
    apply ih (s + 1) m
    intro j hj
    have hh := h (j + 1) (by omega)
    rwa [show s + (j + 1) = s + 1 + j by omega] at hh

lemma waitLoop_skip_none (n : Nat) :
    ∀ s m : Nat, (∀ j, j < n → fut (s + j) = .Pending) →
      waitLoop fut none times (n + m) s = waitLoop fut none times m (s + n) := by
  induction n with
  | zero => intro s m _; simp
  | succ n ih =>
    intro s m h
    have h0 := h 0 (Nat.succ_pos n)
    rw [Nat.add_zero] at h0
    rw [show n + 1 + m = (n + m) + 1 by omega,
      waitLoop_park_none fut times s (n + m) h0,
      show s + (n + 1) = s + 1 + n by omega]
    apply ih (s + 1) m
    intro j hj
    have hh := h (j + 1) (by omega)
    rwa [show s + (j + 1) = s + 1 + j by omega] at hh

lemma waitLoop_pending_timedOut (d : Nat) (hP : ∀ i, fut i = .Pending) (n : Nat) :
    ∀ s m : Nat, d ≤ times (s + n) →
      waitLoop fut (some d) times (n + m + 1) s = some (.error (.TimedOut ⟨⟩)) := by
  induction n with
  | zero =>
    intro s m h
    rw [Nat.add_zero] at h
    rw [show 0 + m + 1 = m + 1 by omega]
    exact waitLoop_timedOut fut times d s m (hP s) h
  | succ n ih =>
    intro s m h
    by_cases hd : d ≤ times s
    · rw [show n + 1 + m + 1 = (n + m + 1) + 1 by omega]
      exact waitLoop_timedOut fut times d s (n + m + 1) (hP s) hd
    · rw [show n + 1 + m + 1 = (n + m + 1) + 1 by omega,
        waitLoop_park fut times d s (n + m + 1) (hP s) (Nat.lt_of_not_le hd)]
      apply ih (s + 1) m
      rwa [show s + 1 + n = s + (n + 1) by omega]

lemma waitLoop_sound (dl : Option Nat) :
    ∀ fuel s r, waitLoop fut dl times fuel s = some r →
      ∃ j, waitStep (fut j) dl (times j) = .done r := by
  intro fuel
  induction fuel with
  | zero => intro s r h; simp [waitLoop] at h
  | succ fuel ih =>
    intro s r h
    simp only [waitLoop] at h
    cases hstep : waitStep (fut s) dl (times s) with
    | done r2 =>
      rw [hstep] at h
      simp only [Option.some.injEq] at h
      exact ⟨s, by rw [hstep, h]⟩
    | parkFor k =>
      rw [hstep] at h
      exact ih (s + 1) r h
    | park =>
      rw [hstep] at h
      exact ih (s + 1) r h

lemma tokioSelect_ready_futFirst (s m : Nat) (r : Except E I)
    (ho : futFirst s = true) (h : fut s = .Ready r) :
    tokioSelect futFirst fut sleepDone (m + 1) s = some (mapInnerErr r) := by
  simp [tokioSelect, ho, h]

lemma tokioSelect_ready_noSleep (s m : Nat) (r : Except E I)
    (hs : sleepDone s = false) (h : fut s = .Ready r) :
    tokioSelect futFirst fut sleepDone (m + 1) s = some (mapInnerErr r) := by
  cases ho : futFirst s
  · simp [tokioSelect, ho, hs, h]
  · simp [tokioSelect, ho, h]

lemma tokioSelect_timedOut (s m : Nat) (h : fut s = .Pending) (hs : sleepDone s = true) :
    tokioSelect futFirst fut sleepDone (m + 1) s = some (.error (.TimedOut ⟨⟩)) := by
  cases ho : futFirst s <;> simp [tokioSelect, ho, h, hs]

lemma tokioSelect_cont (s fuel : Nat) (h : fut s = .Pending) (hs : sleepDone s = false) :
    tokioSelect futFirst fut sleepDone (fuel + 1) s
      = tokioSelect futFirst fut sleepDone fuel (s + 1) := by
  cases ho : futFirst s <;> simp [tokioSelect, ho, h, hs]

lemma tokioSelect_skip (n : Nat) :
    ∀ s m : Nat, (∀ j, j < n → fut (s + j) = .Pending ∧ sleepDone (s + j) = false) →
      tokioSelect futFirst fut sleepDone (n + m) s
        = tokioSelect futFirst fut sleepDone m (s + n) := by
  induction n with
  | zero => intro s m _; simp
  | succ n ih =>
    intro s m h
    have h0 := h 0 (Nat.succ_pos n)
    rw [Nat.add_zero] at h0
    rw [show n + 1 + m = (n + m) + 1 by omega,
      tokioSelect_cont fut futFirst sleepDone s (n + m) h0.1 h0.2,
      show s + (n + 1) = s + 1 + n by omega]
    apply ih (s + 1) m
    intro j hj
    have hh := h (j + 1) (by omega)
    rwa [show s + (j + 1) = s + 1 + j by omega] at hh

lemma tokioSelect_timer_reached (n : Nat) :
    ∀ s m : Nat, (∀ j, j ≤ n → fut (s + j) = .Pending) → sleepDone (s + n) = true →
      tokioSelect futFirst fut sleepDone (n + m + 1) s
        = some (.error (.TimedOut ⟨⟩)) := by
  induction n with
  | zero =>
    intro s m h hs
    rw [Nat.add_zero] at hs
    have h0 := h 0 (Nat.le_refl 0)
    rw [Nat.add_zero] at h0
    rw [show 0 + m + 1 = m + 1 by omega]
    exact tokioSelect_timedOut fut futFirst sleepDone s m h0 hs
  | succ n ih =>
    intro s m h hs
    have h0 := h 0 (Nat.zero_le _)
    rw [Nat.add_zero] at h0
    by_cases hd : sleepDone s = true
    · rw [show n + 1 + m + 1 = (n + m + 1) + 1 by omega]
      exact tokioSelect_timedOut fut futFirst sleepDone s (n + m + 1) h0 hd
    · have hd' : sleepDone s = false := by
        cases hv : sleepDone s
        · rfl
        · exact absurd hv hd
      rw [show n + 1 + m + 1 = (n + m + 1) + 1 by omega,
        tokioSelect_cont fut futFirst sleepDone s (n + m + 1) h0 hd']
      apply ih (s + 1) m
      · intro j hj
        have hh := h (j + 1) (by omega)
        rwa [show s + (j + 1) = s + 1 + j by omega] at hh
      · rwa [show s + 1 + n = s + (n + 1) by omega]

lemma blockOn_ready (s m : Nat) (r : Except E I) (h : fut s = .Ready r) :
    blockOn fut (m + 1) s = some (mapInnerErr r) := by
  simp [blockOn, h]

lemma blockOn_cont (s fuel : Nat) (h : fut s = .Pending) :
    blockOn fut (fuel + 1) s = blockOn fut fuel (s + 1) := by
  simp [blockOn, h]

lemma blockOn_skip (n : Nat) :
    ∀ s m : Nat, (∀ j, j < n → fut (s + j) = .Pending) →
      blockOn fut (n + m) s = blockOn fut m (s + n) := by
  induction n with
  | zero => intro s m _; simp
  | succ n ih =>
    intro s m h
    have h0 := h 0 (Nat.succ_pos n)
    rw [Nat.add_zero] at h0
    rw [show n + 1 + m = (n + m) + 1 by omega,
      blockOn_cont fut s (n + m) h0,
      show s + (n + 1) = s + 1 + n by omega]
    apply ih (s + 1) m
    intro j hj
    have hh := h (j + 1) (by omega)
    rwa [show s + (j + 1) = s + 1 + j by omega] at hh

end Lemmas

/-! ## Inversion lemmas for `waitStep` -/

section Inversion

variable {I E : Type}

lemma waitStep_done_ok (p : Poll (Except E I)) (dl : Option Nat) (now : Nat) (v : I)
    (h : waitStep p dl now = .done (.ok v)) : p = .Ready (.ok v) := by
  cases p with
  | Ready r =>
    cases r with
    | ok w => simp [waitStep] at h; rw [h]
    | error e => simp [waitStep] at h
  | Pending =>
    cases dl with
    | some d =>
      simp only [waitStep] at h
      split at h <;> simp at h
    | none => simp [waitStep] at h

lemma waitStep_done_inner (p : Poll (Except E I)) (dl : Option Nat) (now : Nat) (e : E)
    (h : waitStep p dl now = .done (.error (.Inner e))) : p = .Ready (.error e) := by
  cases p with
  | Ready r =>
    cases r with
    | ok w => simp [waitStep] at h
    | error e2 => simp [waitStep] at h; rw [h]
  | Pending =>
    cases dl with
    | some d =>
      simp only [waitStep] at h
      split at h <;> simp at h
    | none => simp [waitStep] at h

lemma waitStep_done_timedOut (p : Poll (Except E I)) (d now : Nat) (m : TimedOutMark)
    (h : waitStep p (some d) now = .done (.error (.TimedOut m))) :
    p = .Pending ∧ d ≤ now := by
  cases p with
  | Ready r =>
    cases r with
    | ok w => simp [waitStep] at h
    | error e => simp [waitStep] at h
  | Pending =>
    simp only [waitStep] at h
    split at h
    · exact ⟨rfl, by assumption⟩
    · simp at h

lemma waitStep_none_not_timedOut (p : Poll (Except E I)) (now : Nat) (m : TimedOutMark) :
    waitStep p none now ≠ .done (.error (.TimedOut m)) := by
  cases p with
  | Ready r => cases r with
    | ok w => simp [waitStep]
    | error e => simp [waitStep]
  | Pending => simp [waitStep]

end Inversion

/-! ## Claim theorems -/

/-- Claim C1: every call to `timeout` produces exactly one of the three
outcomes — a success value `I`, `Waited::TimedOut`, or `Waited::Inner(E)`;
the three are mutually exclusive and exhaustive. -/
theorem timeout_exactly_one_outcome {I E : Type} (hasHandle : Bool)
    (futFirst : Nat → Bool) (fut : Nat → Poll (Except E I)) (tmo : Option Nat)
    (now0 : Nat) (times : Nat → Nat) (fuel : Nat) (r : Except (Waited E) I)
    (_h : timeout hasHandle futFirst fut tmo now0 times fuel = some r) :
    ((∃ v, r = .ok v) ∧ r ≠ .error (.TimedOut ⟨⟩) ∧ ¬∃ e, r = .error (.Inner e))
    ∨ (r = .error (.TimedOut ⟨⟩) ∧ (¬∃ v, r = .ok v) ∧ ¬∃ e, r = .error (.Inner e))
    ∨ ((∃ e, r = .error (.Inner e)) ∧ (¬∃ v, r = .ok v) ∧ r ≠ .error (.TimedOut ⟨⟩)) := by
  clear _h
  cases r with
  | ok v => exact Or.inl ⟨⟨v, rfl⟩, by simp, by simp⟩
  | error w =>
    cases w with
    | TimedOut m =>
      cases m
      exact Or.inr (Or.inl ⟨rfl, by simp, by simp⟩)
    | Inner e => exact Or.inr (Or.inr ⟨⟨e, rfl⟩, by simp, by simp⟩)

/-- Witness for C1 at a concrete call that returns `Ok 42`. -/
theorem timeout_exactly_one_outcome_witness :
    ((∃ v, (Except.ok 42 : Except (Waited Nat) Nat) = .ok v)
        ∧ (Except.ok 42 : Except (Waited Nat) Nat) ≠ .error (.TimedOut ⟨⟩)
        ∧ ¬∃ e, (Except.ok 42 : Except (Waited Nat) Nat) = .error (.Inner e))
    ∨ ((Except.ok 42 : Except (Waited Nat) Nat) = .error (.TimedOut ⟨⟩)
        ∧ (¬∃ v, (Except.ok 42 : Except (Waited Nat) Nat) = .ok v)
        ∧ ¬∃ e, (Except.ok 42 : Except (Waited Nat) Nat) = .error (.Inner e))
    ∨ ((∃ e, (Except.ok 42 : Except (Waited Nat) Nat) = .error (.Inner e))
        ∧ (¬∃ v, (Except.ok 42 : Except (Waited Nat) Nat) = .ok v)
        ∧ (Except.ok 42 : Except (Waited Nat) Nat) ≠ .error (.TimedOut ⟨⟩)) :=
  timeout_exactly_one_outcome false (fun _ => true)
    (fun _ => Poll.Ready (Except.ok 42)) (some 5) 0 (fun _ => 0) 1
    (Except.ok 42) (by rfl)

/-- Claim C3: with no timeout requested, a completing future's outcome is
returned exactly — `Ok(val)` on success and `Err(Waited::Inner(err))` on
the future's own error — and never `TimedOut`, on both the delegated
(block-on) and the self-contained path. -/
theorem timeout_none_returns_future_outcome {I E : Type} (hasHandle : Bool)
    (futFirst : Nat → Bool) (fut : Nat → Poll (Except E I)) (now0 : Nat)
    (times : Nat → Nat) (i m : Nat) (r : Except E I)
    (hpend : ∀ j, j < i → fut j = .Pending) (hready : fut i = .Ready r) :
    timeout hasHandle futFirst fut none now0 times (i + (m + 1))
      = some (mapInnerErr r) := by
  have hz : ∀ j, j < i → fut (0 + j) = .Pending := fun j hj => by
    rw [Nat.zero_add]; exact hpend j hj
  have hri : fut (0 + i) = .Ready r := by rw [Nat.zero_add]; exact hready
  cases hasHandle with
  | false =>
    show waitLoop fut none times (i + (m + 1)) 0 = some (mapInnerErr r)
    rw [waitLoop_skip_none fut times i 0 (m + 1) hz]
    exact waitLoop_ready fut times none (0 + i) m r hri
  | true =>
    show blockOn fut (i + (m + 1)) 0 = some (mapInnerErr r)
    rw [blockOn_skip fut i 0 (m + 1) hz]
    exact blockOn_ready fut (0 + i) m r hri

/-- Witness for C3: a future that errors on its second poll, delegated
path, no timeout. -/
theorem timeout_none_returns_future_outcome_witness :
    timeout true (fun _ => true)
      (fun j => if j = 0 then Poll.Pending else Poll.Ready (Except.error 9)
        : Nat → Poll (Except Nat Nat))
      none 0 (fun _ => 0) 2 = some (Except.error (Waited.Inner 9)) :=
  timeout_none_returns_future_outcome true (fun _ => true)
    (fun j => if j = 0 then Poll.Pending else Poll.Ready (Except.error 9))
    0 (fun _ => 0) 1 0 (Except.error 9)
    (fun j hj => by interval_cases j <;> rfl) rfl

/-- Claim C5: the waiting step of the self-contained loop after a
`Pending` poll: with a deadline at or before "now" it decides `TimedOut`
without parking; with a deadline still ahead it parks for exactly
`deadline - now`; with no deadline it parks unboundedly. -/
theorem waitStep_waiting_behavior (I E : Type) (d now : Nat) :
    (d ≤ now → waitStep (Poll.Pending : Poll (Except E I)) (some d) now
        = .done (.error (.TimedOut ⟨⟩))) ∧
    (now < d → waitStep (Poll.Pending : Poll (Except E I)) (some d) now
        = .parkFor (d - now)) ∧
    waitStep (Poll.Pending : Poll (Except E I)) none now = .park := by
  refine ⟨fun h => ?_, fun h => ?_, ?_⟩
  · simp [waitStep, h]
  · simp [waitStep, Nat.not_le.mpr h]
  · simp [waitStep]

/-- Witness for C5 at `deadline = 5, now = 7` (already past) and
`deadline = 9, now = 7` (two units remaining). -/
theorem waitStep_waiting_behavior_witness :
    waitStep (Poll.Pending : Poll (Except Nat Nat)) (some 5) 7
        = .done (.error (.TimedOut ⟨⟩)) ∧
    waitStep (Poll.Pending : Poll (Except Nat Nat)) (some 9) 7 = .parkFor 2 :=
  ⟨(waitStep_waiting_behavior Nat Nat 5 7).1 (by omega),
   (waitStep_waiting_behavior Nat Nat 9 7).2.1 (by omega)⟩

/-- Claim C8: a `ThreadWaker` is bound to one thread identity at
construction; invoking it (`wake_by_ref`) only unparks the stored thread,
leaves every other thread's park token unchanged, and is idempotent, so
repeated invocations are safe to coalesce. -/
theorem threadWaker_wake_semantics (t : Nat) (tokens : Nat → Bool) :
    (ThreadWaker.mk t).thread = t ∧
    wake_by_ref ⟨t⟩ tokens t = true ∧
    (∀ u, u ≠ t → wake_by_ref ⟨t⟩ tokens u = tokens u) ∧
    wake_by_ref ⟨t⟩ (wake_by_ref ⟨t⟩ tokens) = wake_by_ref ⟨t⟩ tokens := by
  refine ⟨rfl, ?_, ?_, ?_⟩
  · simp [wake_by_ref, unpark]
  · intro u hu; simp [wake_by_ref, unpark, hu]
  · funext u
    by_cases h : u = t <;> simp [wake_by_ref, unpark, h]

/-- Witness for C8: waking thread 3 leaves thread 1's token unchanged. -/
theorem threadWaker_wake_semantics_witness :
    wake_by_ref ⟨3⟩ (fun _ => false) 1 = false :=
  (threadWaker_wake_semantics 3 (fun _ => false)).2.2.1 1 (by decide)

/-- Claim C9: the self-contained loop polls before checking the
deadline: a future ready on its first poll wins even when the deadline
has already passed at entry, and `TimedOut` can only be produced after a
`Pending` poll. -/
theorem timeout_polls_before_deadline_check {I E : Type} (futFirst : Nat → Bool)
    (fut : Nat → Poll (Except E I)) (tmo : Option Nat) (now0 : Nat)
    (times : Nat → Nat) :
    (∀ r m, fut 0 = .Ready r →
      timeout false futFirst fut tmo now0 times (m + 1) = some (mapInnerErr r)) ∧
    (∀ fuel, timeout false futFirst fut tmo now0 times fuel
        = some (.error (.TimedOut ⟨⟩)) → ∃ j, fut j = .Pending) := by
  constructor
  · intro r m h
    show waitLoop fut (tmo.map fun d => now0 + d) times (m + 1) 0
      = some (mapInnerErr r)
    exact waitLoop_ready fut times _ 0 m r h
  · intro fuel h
    cases tmo with
    | none =>
      replace h : waitLoop fut none times fuel 0
          = some (.error (.TimedOut ⟨⟩)) := h
      obtain ⟨j, hj⟩ := waitLoop_sound fut times none fuel 0 _ h
      exact absurd hj (waitStep_none_not_timedOut _ _ _)
    | some d =>
      replace h : waitLoop fut (some (now0 + d)) times fuel 0
          = some (.error (.TimedOut ⟨⟩)) := h
      obtain ⟨j, hj⟩ := waitLoop_sound fut times (some (now0 + d)) fuel 0 _ h
      exact ⟨j, (waitStep_done_timedOut _ _ _ _ hj).1⟩

/-- Witness for C9: zero timeout with a deadline already passed at the
first check (`now0 = 7`, `times 0 = 9`), future immediately ready. -/
theorem timeout_polls_before_deadline_check_witness :
    timeout false (fun _ => true)
      (fun _ => Poll.Ready (Except.ok 5) : Nat → Poll (Except Nat Nat))
      (some 0) 7 (fun _ => 9) 1 = some (Except.ok 5) :=
  (timeout_polls_before_deadline_check (fun _ => true)
      (fun _ => Poll.Ready (Except.ok 5)) (some 0) 7 (fun _ => 9)).1
    (Except.ok 5) 0 rfl

/-- Claim C10: the duration handed to `park_timeout` is computed only
under the guard `now < deadline`, so `deadline - now` never underflows
and the parking duration is strictly positive. -/
theorem waitStep_park_duration_positive {I E : Type} (p : Poll (Except E I))
    (d now k : Nat) (h : waitStep p (some d) now = .parkFor k) :
    now < d ∧ k = d - now ∧ 0 < k := by
  cases p with
  | Ready r =>
    cases r with
    | ok w => simp [waitStep] at h
    | error e => simp [waitStep] at h
  | Pending =>
    simp only [waitStep] at h
    split at h
    · simp at h
    · simp only [StepAction.parkFor.injEq] at h
      exact ⟨by omega, by omega, by omega⟩

/-- Witness for C10 at `deadline = 5, now = 2`: the park duration is 3. -/
theorem waitStep_park_duration_positive_witness : 2 < 5 ∧ 3 = 5 - 2 ∧ 0 < 3 :=
  waitStep_park_duration_positive (Poll.Pending : Poll (Except Nat Nat)) 5 2 3 rfl

/-- Counterexample to C2 as stated: on the delegated path the
`tokio::select!` race has no `biased;` marker, so its branches are polled
in a randomized order.  With a zero timeout, a future that is already
ready, and the randomized order putting the timer branch first, both
branches are ready in the same check and the call returns `TimedOut`, not
the future's outcome: the tie is not broken in the future's favor on the
delegated path. -/
theorem select_tie_timer_first_counterexample :
    timeout true (fun _ => false)
        (fun _ => Poll.Ready (Except.ok 42) : Nat → Poll (Except Nat Nat))
        (some 0) 0 (fun _ => 0) 1
      = some (Except.error (Waited.TimedOut ⟨⟩)) ∧
    timeout true (fun _ => false)
        (fun _ => Poll.Ready (Except.ok 42) : Nat → Poll (Except Nat Nat))
        (some 0) 0 (fun _ => 0) 1
      ≠ some (Except.ok 42) := by
  constructor
  · rfl
  · decide

/-- Claim C2 (amended): if the future resolves strictly before the
deadline the call returns the future's outcome and never `TimedOut`, on
both paths.  Ties (future and deadline observed ready in the same check)
are broken in the future's favor on the self-contained path, but on the
delegated path only when the randomized `tokio::select!` polling order
checks the future's branch first. -/
theorem timeout_future_resolving_first_wins {I E : Type} (futFirst : Nat → Bool)
    (fut : Nat → Poll (Except E I)) (d now0 : Nat) (times : Nat → Nat)
    (i m : Nat) (r : Except E I) :
    ((∀ j, j < i → fut j = .Pending ∧ times j < now0 + d) → fut i = .Ready r →
      timeout false futFirst fut (some d) now0 times (i + (m + 1))
        = some (mapInnerErr r)) ∧
    ((∀ j, j < i → fut j = .Pending ∧ times j < now0 + d) → fut i = .Ready r →
      times i < now0 + d →
      timeout true futFirst fut (some d) now0 times (i + (m + 1))
        = some (mapInnerErr r)) ∧
    ((∀ j, j < i → fut j = .Pending ∧ times j < now0 + d) → fut i = .Ready r →
      futFirst i = true →
      timeout true futFirst fut (some d) now0 times (i + (m + 1))
        = some (mapInnerErr r)) := by
  refine ⟨fun hpre hr => ?_, fun hpre hr hlt => ?_, fun hpre hr ho => ?_⟩
  · show waitLoop fut (some (now0 + d)) times (i + (m + 1)) 0 = some (mapInnerErr r)
    rw [waitLoop_skip fut times (now0 + d) i 0 (m + 1) (fun j hj => by
      rw [Nat.zero_add]; exact hpre j hj)]
    exact waitLoop_ready fut times _ (0 + i) m r (by rw [Nat.zero_add]; exact hr)
  · show tokioSelect futFirst fut (fun j => decide (now0 + d ≤ times j))
      (i + (m + 1)) 0 = some (mapInnerErr r)
    rw [tokioSelect_skip fut futFirst _ i 0 (m + 1) (fun j hj => by
      rw [Nat.zero_add]
      exact ⟨(hpre j hj).1, decide_eq_false (Nat.not_le.mpr (hpre j hj).2)⟩)]
    exact tokioSelect_ready_noSleep fut futFirst _ (0 + i) m r
      (by rw [Nat.zero_add]; exact decide_eq_false (Nat.not_le.mpr hlt))
      (by rw [Nat.zero_add]; exact hr)
  · show tokioSelect futFirst fut (fun j => decide (now0 + d ≤ times j))
      (i + (m + 1)) 0 = some (mapInnerErr r)
    rw [tokioSelect_skip fut futFirst _ i 0 (m + 1) (fun j hj => by
      rw [Nat.zero_add]
      exact ⟨(hpre j hj).1, decide_eq_false (Nat.not_le.mpr (hpre j hj).2)⟩)]
    exact tokioSelect_ready_futFirst fut futFirst _ (0 + i) m r
      (by rw [Nat.zero_add]; exact ho)
      (by rw [Nat.zero_add]; exact hr)

/-- Witness for the amended C2: delegated path, future ready at the
first poll and polled first by the select, deadline already reached. -/
theorem timeout_future_resolving_first_wins_witness :
    timeout true (fun _ => true)
        (fun _ => Poll.Ready (Except.ok 8) : Nat → Poll (Except Nat Nat))
        (some 0) 0 (fun _ => 0) 1
      = some (Except.ok 8) :=
  (timeout_future_resolving_first_wins (fun _ => true)
      (fun _ => Poll.Ready (Except.ok 8)) 0 0 (fun _ => 0) 0 0 (Except.ok 8)).2.2
    (fun j hj => absurd hj (Nat.not_lt_zero j)) rfl rfl

/-- Claim C4: a future that never resolves, with a requested timeout
`d`, makes the self-contained call terminate with `TimedOut` once the
observed clock reaches the deadline (the clock model advances the parked
thread's time toward the deadline). -/
theorem timeout_pending_future_times_out {I E : Type} (futFirst : Nat → Bool)
    (fut : Nat → Poll (Except E I)) (d now0 : Nat) (times : Nat → Nat)
    (N m : Nat) (hP : ∀ i, fut i = .Pending) (hN : now0 + d ≤ times N) :
    timeout false futFirst fut (some d) now0 times (N + m + 1)
      = some (.error (.TimedOut ⟨⟩)) := by
  show waitLoop fut (some (now0 + d)) times (N + m + 1) 0
    = some (.error (.TimedOut ⟨⟩))
  exact waitLoop_pending_timedOut fut times (now0 + d) hP N 0 m
    (by rw [Nat.zero_add]; exact hN)

/-- Witness for C4: an always-pending future, timeout 1, clock reaching
the deadline at the second iteration. -/
theorem timeout_pending_future_times_out_witness :
    timeout false (fun _ => true)
        (fun _ => Poll.Pending : Nat → Poll (Except Nat Nat))
        (some 1) 0 (fun j => j) 2
      = some (Except.error (Waited.TimedOut ⟨⟩)) :=
  timeout_pending_future_times_out (fun _ => true) (fun _ => Poll.Pending)
    1 0 (fun j => j) 1 0 (fun _ => rfl) (by decide)

/-- Claim C6: on the delegated path with a requested timeout, the future
is raced against the runtime's timer: if the timer elapses while the
future is still pending the call produces `TimedOut`, and if the future
resolves while the timer has not elapsed the call produces its success
value or `Inner(error)`. -/
theorem timeout_delegated_race {I E : Type} (futFirst : Nat → Bool)
    (fut : Nat → Poll (Except E I)) (d now0 : Nat) (times : Nat → Nat)
    (i m : Nat) (r : Except E I) :
    ((∀ j, j ≤ i → fut j = .Pending) → now0 + d ≤ times i →
      timeout true futFirst fut (some d) now0 times (i + m + 1)
        = some (.error (.TimedOut ⟨⟩))) ∧
    ((∀ j, j < i → fut j = .Pending) → (∀ j, j ≤ i → times j < now0 + d) →
      fut i = .Ready r →
      timeout true futFirst fut (some d) now0 times (i + (m + 1))
        = some (mapInnerErr r)) := by
  constructor
  · intro hpend hsleep
    show tokioSelect futFirst fut (fun j => decide (now0 + d ≤ times j))
      (i + m + 1) 0 = some (.error (.TimedOut ⟨⟩))
    exact tokioSelect_timer_reached fut futFirst _ i 0 m
      (fun j hj => by rw [Nat.zero_add]; exact hpend j hj)
      (by rw [Nat.zero_add]; exact decide_eq_true hsleep)
  · intro hpend hnot hr
    show tokioSelect futFirst fut (fun j => decide (now0 + d ≤ times j))
      (i + (m + 1)) 0 = some (mapInnerErr r)
    rw [tokioSelect_skip fut futFirst _ i 0 (m + 1) (fun j hj => by
      rw [Nat.zero_add]
      exact ⟨hpend j hj, decide_eq_false (Nat.not_le.mpr (hnot j (by omega)))⟩)]
    exact tokioSelect_ready_noSleep fut futFirst _ (0 + i) m r
      (by rw [Nat.zero_add]
          exact decide_eq_false (Nat.not_le.mpr (hnot i (Nat.le_refl i))))
      (by rw [Nat.zero_add]; exact hr)

/-- Witness for C6: an always-pending future with a zero timeout times
out at the first check of the delegated race. -/
theorem timeout_delegated_race_witness :
    timeout true (fun _ => true)
        (fun _ => Poll.Pending : Nat → Poll (Except Nat Nat))
        (some 0) 0 (fun _ => 0) 1
      = some (Except.error (Waited.TimedOut ⟨⟩)) :=
  (timeout_delegated_race (fun _ => true) (fun _ => Poll.Pending)
      0 0 (fun _ => 0) 0 0 (Except.ok 0)).1
    (fun _ _ => rfl) (by decide)

/-- Claim C7: in the self-contained loop every wake — waker, timer or
spurious — only re-enters the loop, which re-polls the future and
re-checks the deadline before deciding: a `Pending` poll with the
deadline still ahead merely continues the loop, `TimedOut` is decided
only at an iteration that observed a `Pending` poll with the deadline
reached, and a success or inner error is decided only at an iteration
that observed the future ready with that very outcome. -/
theorem waitLoop_rechecks_before_deciding {I E : Type}
    (fut : Nat → Poll (Except E I)) (d : Nat) (times : Nat → Nat) :
    (∀ i fuel, fut i = .Pending → times i < d →
      waitLoop fut (some d) times (fuel + 1) i
        = waitLoop fut (some d) times fuel (i + 1)) ∧
    (∀ fuel i, waitLoop fut (some d) times fuel i
        = some (.error (.TimedOut ⟨⟩)) → ∃ j, fut j = .Pending ∧ d ≤ times j) ∧
    (∀ fuel i v, waitLoop fut (some d) times fuel i = some (.ok v) →
      ∃ j, fut j = .Ready (.ok v)) ∧
    (∀ fuel i e, waitLoop fut (some d) times fuel i = some (.error (.Inner e)) →
      ∃ j, fut j = .Ready (.error e)) := by
  refine ⟨fun i fuel h1 h2 => waitLoop_park fut times d i fuel h1 h2,
    fun fuel i h => ?_, fun fuel i v h => ?_, fun fuel i e h => ?_⟩
  · obtain ⟨j, hj⟩ := waitLoop_sound fut times (some d) fuel i _ h
    obtain ⟨hp, hd⟩ := waitStep_done_timedOut _ _ _ _ hj
    exact ⟨j, hp, hd⟩
  · obtain ⟨j, hj⟩ := waitLoop_sound fut times (some d) fuel i _ h
    exact ⟨j, waitStep_done_ok _ _ _ _ hj⟩
  · obtain ⟨j, hj⟩ := waitLoop_sound fut times (some d) fuel i _ h
    exact ⟨j, waitStep_done_inner _ _ _ _ hj⟩

/-- Witness for C7: a spurious wake (pending poll, deadline not reached)
only re-enters the loop at the next iteration. -/
theorem waitLoop_rechecks_before_deciding_witness :
    waitLoop (fun _ => Poll.Pending : Nat → Poll (Except Nat Nat))
        (some 5) (fun _ => 0) 1 0
      = waitLoop (fun _ => Poll.Pending : Nat → Poll (Except Nat Nat))
        (some 5) (fun _ => 0) 0 1 :=
  (waitLoop_rechecks_before_deciding (fun _ => Poll.Pending) 5 (fun _ => 0)).1
    0 0 rfl (by decide)

end Wait
